import Mathlib

/-
Verification development for the diet-tracker application (src/diet_app.py).

The backend functions of the application are shallowly embedded below:
pure arithmetic is modelled over the rationals, remote-spreadsheet reads
are modelled as an explicit fetch result of type Except Unit (List _)
(error = any transport, auth or missing-sheet failure caught by the
surrounding try block), and the pandas date-parsing fallback is modelled
as an oracle parameter of type String to Option String (none = parse
exception).  Dates produced by the planner are modelled as integer day
ordinals; a Python timedelta added to a date contributes its whole-day
part, i.e. the floor of the fractional day count.
-/

namespace DietApp

/-! ## Macro estimator and target planner (src/diet_app.py lines 149-183) -/

/-- Embedding of smart_carb_calc: explicit carbs win when positive,
otherwise the calories unaccounted for by protein and fat are converted
to carb grams, clamped at zero. -/
def smart_carb_calc (cal p f c_input : ℚ) : ℚ :=
  if c_input > 0 then c_input
  else max 0 ((cal - (p * 4) - (f * 9)) / 4)

/-- CALORIES_PER_KG_FAT constant from the configuration block. -/
def CALORIES_PER_KG_FAT : ℚ := 7700

/-- Embedding of the module-level daily_surplus computation. -/
def daily_surplus (pace : ℚ) : ℚ := (pace * CALORIES_PER_KG_FAT) / 7

/-- Embedding of target_cal = maintenance_cal + daily_surplus. -/
def target_cal (maintenance_cal pace : ℚ) : ℚ :=
  maintenance_cal + daily_surplus pace

/-- Embedding of target_p = current_w * 2.4. -/
def target_p (current_w : ℚ) : ℚ := current_w * 2.4

/-- Embedding of target_f = 80. -/
def target_f : ℚ := 80

/-- Embedding of target_c = smart_carb_calc(target_cal, target_p, target_f, 0). -/
def target_c (maintenance_cal pace current_w : ℚ) : ℚ :=
  smart_carb_calc (target_cal maintenance_cal pace) (target_p current_w) target_f 0

/-- Embedding of weeks_needed = abs(target_w - current_w) / abs(pace). -/
def weeks_needed (target_w current_w pace : ℚ) : ℚ :=
  |target_w - current_w| / |pace|

/-- Embedding of the finish_date projection: computed only when pace is
nonzero; date.today() plus timedelta(weeks=weeks_needed), where adding a
timedelta to a date contributes floor(weeks * 7) whole days. -/
def finish_date (pace target_w current_w : ℚ) (today : ℤ) : Option ℤ :=
  if pace ≠ 0 then some (today + Int.floor (weeks_needed target_w current_w pace * 7))
  else none

/-! ## Food catalog (src/diet_app.py lines 36-59) -/

/-- A parsed per-serving macro profile, the value side of the catalog. -/
structure FoodProfile where
  cal : ℚ
  p : ℚ
  f : ℚ
  c : ℚ
deriving DecidableEq

/-- A raw row of the remote Foods table.  Each macro cell is some q when
float() succeeds on it and none when the cell is malformed, in which
case float() raises and the surrounding try block aborts the merge. -/
structure FoodRow where
  name : String
  cal : Option ℚ
  p : Option ℚ
  f : Option ℚ
  c : Option ℚ
deriving DecidableEq

/-- Lookup in an association list, mirroring Python dict access. -/
def alookup {α : Type} : List (String × α) → String → Option α
  | [], _ => none
  | kv :: rest, k => if kv.1 = k then some kv.2 else alookup rest k

/-- Python dict assignment db[k] = v: overwrite the existing binding in
place when the key is present, otherwise append a new binding. -/
def dbInsert : List (String × FoodProfile) → String → FoodProfile →
    List (String × FoodProfile)
  | [], k, v => [(k, v)]
  | kv :: rest, k, v =>
    if kv.1 = k then (k, v) :: rest else kv :: dbInsert rest k v

/-- The built-in base_db literal of load_food_db. -/
def base_db : List (String × FoodProfile) :=
  [("Shake A (Morning - Heavy)", ⟨457, 14.9, 12.6, 72.0⟩),
   ("Shake B (Evening - Lite)", ⟨397, 12.8, 7.4, 68.0⟩),
   ("Shake B (Maintenance - Banana Only)", ⟨282, 9.6, 5.6, 48.0⟩),
   ("Eggs (5 Large + Butter)", ⟨406, 31.0, 29.0, 2.0⟩),
   ("Lunch (6 Roti + Low Oil Sabzi)", ⟨620, 18.0, 17.0, 95.0⟩),
   ("Chicken Breast (200g + Oil)", ⟨365, 60.0, 11.0, 0.0⟩),
   ("Pasta (265g Cooked - Bulk)", ⟨416, 14.0, 1.5, 85.0⟩),
   ("Pasta (150g Cooked - Normal)", ⟨235, 8.0, 1.0, 48.0⟩),
   ("Apple (1 Medium)", ⟨95, 0.5, 0.0, 25.0⟩)]

/-- A row processes without an exception: either its name is empty (the
row is skipped before any float() call) or all four macro cells parse. -/
def rowOk (r : FoodRow) : Bool :=
  r.name == "" || (r.cal.isSome && r.p.isSome && r.f.isSome && r.c.isSome)

/-- The merge loop of load_food_db over the fetched rows.  A row with an
empty name is skipped; a well-formed row overwrites the binding for its
name; a malformed row raises inside the try block, so the loop stops and
the dict mutated so far is returned. -/
def mergeRows : List FoodRow → List (String × FoodProfile) →
    List (String × FoodProfile)
  | [], db => db
  | r :: rs, db =>
    if r.name = "" then mergeRows rs db
    else
      match r.cal, r.p, r.f, r.c with
      | some cal, some p, some f, some c =>
          mergeRows rs (dbInsert db r.name ⟨cal, p, f, c⟩)
      | _, _, _, _ => db

/-- Embedding of load_food_db: start from the built-in base_db, then
merge the remote Foods rows; any failure of the fetch itself leaves the
base_db untouched. -/
def load_food_db (fetch : Except Unit (List FoodRow)) :
    List (String × FoodProfile) :=
  match fetch with
  | Except.error _ => base_db
  | Except.ok rows => mergeRows rows base_db

/-- A well-formed remote row naming a new food, used as a witness. -/
def cexGoodRow : FoodRow := ⟨"Remote Oats", some 100, some 1, some 2, some 3⟩

/-- A malformed remote row: its calorie cell fails to parse. -/
def cexBadRow : FoodRow := ⟨"Remote Rice", none, some 1, some 1, some 1⟩

/-- A remote row overriding the built-in Apple entry. -/
def wFoodRow : FoodRow := ⟨"Apple (1 Medium)", some 10, some 1, some 1, some 1⟩

/-! ## Log store adapter (src/diet_app.py lines 81-132) -/

/-- needle is a leading segment of the character list hay. -/
def startsWithL : List Char → List Char → Bool
  | _, [] => true
  | [], _ :: _ => false
  | a :: as, b :: bs => a == b && startsWithL as bs

/-- needle occurs as a contiguous segment of the character list hay. -/
def hasSubL : List Char → List Char → Bool
  | [], needle => startsWithL [] needle
  | c :: cs, needle => startsWithL (c :: cs) needle || hasSubL cs needle

/-- Embedding of the Python expression needle in hay on strings. -/
def strContains (hay needle : String) : Bool := hasSubL hay.toList needle.toList

/-- A structured History row as returned by get_all_records.  The user
cell is none when the sheet has no user column for this row, matching
row.get of a missing key. -/
structure HistRow where
  date : String
  user : Option String
  name : String
  cal : ℚ
  p : ℚ
  f : ℚ
  c : ℚ
deriving DecidableEq

/-- row.get of the user cell with an empty-string default. -/
def userStr (u : Option String) : String := u.getD ""

/-- Embedding of get_log_for_date.  The parse argument models
str(pd.to_datetime(s).date()): some rendered date on success, none when
parsing raises (the except branch drops the row).  A fetch failure
yields the empty list. -/
def get_log_for_date (parse : String → Option String)
    (fetch : Except Unit (List HistRow)) (selected_date u : String) :
    List HistRow :=
  match fetch with
  | Except.error _ => []
  | Except.ok data =>
    data.filter fun row =>
      if strContains row.date selected_date && (userStr row.user == u) then true
      else if userStr row.user == u then
        match parse row.date with
        | some s => s == selected_date
        | none => false
      else false

/-- A date-parse oracle that always raises, used in concrete instances. -/
def parseNone : String → Option String := fun _ => none

/-- A raw History row as returned by get_all_values: only the first
three cells are consulted by the delete scan. -/
structure VRow where
  date : String
  user : String
  name : String
deriving DecidableEq

/-- The scan loop of delete_meal_from_history: enumerate the raw rows
from position i, skip enumeration index 0 (the header), and return the
enumeration index of the first row whose date, user and name all equal
the target. -/
def findMatchRow (d u n : String) : Nat → List VRow → Option Nat
  | _, [] => none
  | i, r :: rs =>
    if i = 0 then findMatchRow d u n (i + 1) rs
    else if r.date = d ∧ r.user = u ∧ r.name = n then some i
    else findMatchRow d u n (i + 1) rs

/-- The row_to_delete variable: the 1-based sheet index i + 1 of the
first matching row, or -1 when the scan finds nothing. -/
def row_to_delete (table : List VRow) (d u n : String) : Int :=
  match findMatchRow d u n 0 table with
  | some i => (i : Int) + 1
  | none => -1

/-- Embedding of delete_meal_from_history on the raw table: when
row_to_delete is positive that single physical row is deleted and
success is reported, otherwise the table is left unchanged and the
not-found warning is reported (the Bool result). -/
def delete_meal_from_history (table : List VRow) (d u n : String) :
    List VRow × Bool :=
  let r := row_to_delete table d u n
  if 0 < r then (table.eraseIdx (r - 1).toNat, true) else (table, false)

/-! ## Weekly aggregator (src/diet_app.py lines 135-147) -/

/-- The four macro sums of one groupby row. -/
structure Totals where
  cal : ℚ
  p : ℚ
  f : ℚ
  c : ℚ
deriving DecidableEq

/-- Pointwise addition of macro sums. -/
def addTot (a b : Totals) : Totals :=
  ⟨a.cal + b.cal, a.p + b.p, a.f + b.f, a.c + b.c⟩

/-- The macro columns of one history row. -/
def rowTot (r : HistRow) : Totals := ⟨r.cal, r.p, r.f, r.c⟩

/-- Add one row into the per-date running sums. -/
def sumInsert : List (String × Totals) → HistRow → List (String × Totals)
  | [], r => [(r.date, rowTot r)]
  | (k, t) :: rest, r =>
    if k = r.date then (k, addTot t (rowTot r)) :: rest
    else (k, t) :: sumInsert rest r

/-- df.groupby of the date column followed by summing the four macro
columns, as a per-date association of sums. -/
def groupSums (l : List HistRow) : List (String × Totals) :=
  l.foldl sumInsert []

/-- The df filter keeping only rows of the given user. -/
def userRows (data : List HistRow) (u : String) : List HistRow :=
  data.filter fun r => userStr r.user == u

/-- The rows of one date group. -/
def dateRows (l : List HistRow) (d : String) : List HistRow :=
  l.filter fun r => r.date == d

/-- Plain sum of the macro columns of a row list. -/
def sumTot : List HistRow → Totals
  | [] => ⟨0, 0, 0, 0⟩
  | r :: rs => addTot (rowTot r) (sumTot rs)

/-- Embedding of get_weekly_stats: none on a fetch failure, none when
the frame is empty or lacks a user column, otherwise the user's rows
grouped by date with the four macro columns summed per group. -/
def get_weekly_stats (fetch : Except Unit (List HistRow))
    (hasUserCol : Bool) (u : String) : Option (List (String × Totals)) :=
  match fetch with
  | Except.error _ => none
  | Except.ok data =>
    if !data.isEmpty && hasUserCol then some (groupSums (userRows data u))
    else none

/-- Concrete History rows for the aggregator witness: two rows of user
U on date D plus one row of another user. -/
def wWeekData : List HistRow :=
  [⟨"D", some "U", "m1", 400, 1, 2, 3⟩,
   ⟨"D", some "U", "m2", 300, 4, 5, 6⟩,
   ⟨"E", some "V", "m3", 50, 1, 1, 1⟩]

/-! ## Theorems -/

theorem alookup_dbInsert_self (db : List (String × FoodProfile))
    (k : String) (v : FoodProfile) : alookup (dbInsert db k v) k = some v := by
  induction db with
  | nil => simp [dbInsert, alookup]
  | cons kv rest ih =>
    by_cases h : kv.1 = k
    · simp [dbInsert, h, alookup]
    · simp [dbInsert, h, alookup, ih]

theorem alookup_dbInsert_ne (db : List (String × FoodProfile))
    (k n : String) (v : FoodProfile) (hne : k ≠ n) :
    alookup (dbInsert db k v) n = alookup db n := by
  induction db with
  | nil => simp [dbInsert, alookup, hne]
  | cons kv rest ih =>
    by_cases h : kv.1 = k
    · simp [dbInsert, h, alookup, hne]
    · simp [dbInsert, h, alookup, ih]

/-- A row is malformed when some macro cell fails to parse while the
name is non-empty; processing it aborts the merge. -/
theorem mergeRows_cons_bad (r : FoodRow) (rs : List FoodRow)
    (db : List (String × FoodProfile)) (hname : r.name ≠ "")
    (hbad : r.cal = none ∨ r.p = none ∨ r.f = none ∨ r.c = none) :
    mergeRows (r :: rs) db = db := by
  rw [mergeRows, if_neg hname]
  rcases hcal : r.cal with _ | cal
  · rfl
  · rcases hp : r.p with _ | p
    · rfl
    · rcases hf : r.f with _ | f
      · rfl
      · rcases hc : r.c with _ | c
        · rfl
        · exfalso
          rcases hbad with h | h | h | h <;> simp_all

/-- A well-formed row with a non-empty name updates the dict and the
merge continues. -/
theorem mergeRows_cons_good (r : FoodRow) (rs : List FoodRow)
    (db : List (String × FoodProfile)) (hname : r.name ≠ "")
    (cal p f c : ℚ) (hcal : r.cal = some cal) (hp : r.p = some p)
    (hf : r.f = some f) (hc : r.c = some c) :
    mergeRows (r :: rs) db = mergeRows rs (dbInsert db r.name ⟨cal, p, f, c⟩) := by
  rw [mergeRows, if_neg hname, hcal, hp, hf, hc]

theorem alookup_mergeRows_not_mem (n : String) :
    ∀ (rows : List FoodRow) (db : List (String × FoodProfile)),
      (∀ x ∈ rows, x.name ≠ n) →
      alookup (mergeRows rows db) n = alookup db n := by
  intro rows
  induction rows with
  | nil => intro db _; rfl
  | cons r rs ih =>
    intro db h
    have hr : r.name ≠ n := h r (List.mem_cons_self r rs)
    have hrs : ∀ x ∈ rs, x.name ≠ n := fun x hx => h x (List.mem_cons_of_mem r hx)
    by_cases hname : r.name = ""
    · rw [mergeRows, if_pos hname]
      exact ih db hrs
    · rcases hcal : r.cal with _ | cal
      · rw [mergeRows_cons_bad r rs db hname (Or.inl hcal)]
      · rcases hp : r.p with _ | p
        · rw [mergeRows_cons_bad r rs db hname (Or.inr (Or.inl hp))]
        · rcases hf : r.f with _ | f
          · rw [mergeRows_cons_bad r rs db hname (Or.inr (Or.inr (Or.inl hf)))]
          · rcases hc : r.c with _ | c
            · rw [mergeRows_cons_bad r rs db hname (Or.inr (Or.inr (Or.inr hc)))]
            · rw [mergeRows_cons_good r rs db hname cal p f c hcal hp hf hc,
                ih _ hrs]
              exact alookup_dbInsert_ne db r.name n ⟨cal, p, f, c⟩ hr

theorem mergeRows_append_ok (rest : List FoodRow) :
    ∀ (pre : List FoodRow) (db : List (String × FoodProfile)),
      (∀ x ∈ pre, rowOk x = true) →
      mergeRows (pre ++ rest) db = mergeRows rest (mergeRows pre db) := by
  intro pre
  induction pre with
  | nil => intro db _; rfl
  | cons r rs ih =>
    intro db h
    have hr : rowOk r = true := h r (List.mem_cons_self r rs)
    have hrs : ∀ x ∈ rs, rowOk x = true := fun x hx => h x (List.mem_cons_of_mem r hx)
    by_cases hname : r.name = ""
    · rw [List.cons_append, mergeRows, if_pos hname, mergeRows, if_pos hname]
      exact ih db hrs
    · have hsome : r.cal.isSome ∧ r.p.isSome ∧ r.f.isSome ∧ r.c.isSome := by
        rw [rowOk] at hr
        simp only [Bool.or_eq_true, Bool.and_eq_true, beq_iff_eq] at hr
        rcases hr with hr | hr
        · exact absurd hr hname
        · exact ⟨hr.1.1.1, hr.1.1.2, hr.1.2, hr.2⟩
      obtain ⟨cal, hcal⟩ := Option.isSome_iff_exists.mp hsome.1
      obtain ⟨p, hp⟩ := Option.isSome_iff_exists.mp hsome.2.1
      obtain ⟨f, hf⟩ := Option.isSome_iff_exists.mp hsome.2.2.1
      obtain ⟨c, hc⟩ := Option.isSome_iff_exists.mp hsome.2.2.2
      rw [List.cons_append,
        mergeRows_cons_good r (rs ++ rest) db hname cal p f c hcal hp hf hc,
        mergeRows_cons_good r rs db hname cal p f c hcal hp hf hc]
      exact ih _ hrs

theorem rowOk_false_elim (r : FoodRow) (h : rowOk r = false) :
    r.name ≠ "" ∧ (r.cal = none ∨ r.p = none ∨ r.f = none ∨ r.c = none) := by
  constructor
  · intro hname
    rw [rowOk] at h
    simp [hname] at h
  · rcases hcal : r.cal with _ | cal
    · exact Or.inl rfl
    rcases hp : r.p with _ | p
    · exact Or.inr (Or.inl rfl)
    rcases hf : r.f with _ | f
    · exact Or.inr (Or.inr (Or.inl rfl))
    rcases hc : r.c with _ | c
    · exact Or.inr (Or.inr (Or.inr rfl))
    exfalso
    rw [rowOk] at h
    simp [hcal, hp, hf, hc] at h

theorem rowOk_true_fields (r : FoodRow) (h : rowOk r = true) (hname : r.name ≠ "") :
    ∃ cal p f c, r.cal = some cal ∧ r.p = some p ∧ r.f = some f ∧ r.c = some c := by
  rw [rowOk] at h
  simp only [Bool.or_eq_true, Bool.and_eq_true, beq_iff_eq] at h
  rcases h with h | h
  · exact absurd h hname
  · obtain ⟨cal, hcal⟩ := Option.isSome_iff_exists.mp h.1.1.1
    obtain ⟨p, hp⟩ := Option.isSome_iff_exists.mp h.1.1.2
    obtain ⟨f, hf⟩ := Option.isSome_iff_exists.mp h.1.2
    obtain ⟨c, hc⟩ := Option.isSome_iff_exists.mp h.2
    exact ⟨cal, p, f, c, hcal, hp, hf, hc⟩

theorem mergeRows_skip_empty (r : FoodRow) (hr : r.name = "") (post : List FoodRow) :
    ∀ (pre : List FoodRow) (db : List (String × FoodProfile)),
      mergeRows (pre ++ r :: post) db = mergeRows (pre ++ post) db := by
  intro pre
  induction pre with
  | nil =>
    intro db
    rw [List.nil_append, List.nil_append, mergeRows, if_pos hr]
  | cons x xs ih =>
    intro db
    by_cases hok : rowOk x = true
    · by_cases hx : x.name = ""
      · rw [List.cons_append, mergeRows, if_pos hx, List.cons_append, mergeRows,
          if_pos hx, ih]
      · obtain ⟨cal, p, f, c, hcal, hp, hf, hc⟩ := rowOk_true_fields x hok hx
        rw [List.cons_append,
          mergeRows_cons_good x (xs ++ r :: post) db hx cal p f c hcal hp hf hc,
          List.cons_append,
          mergeRows_cons_good x (xs ++ post) db hx cal p f c hcal hp hf hc, ih]
    · obtain ⟨hx, hbad⟩ := rowOk_false_elim x (Bool.eq_false_iff.mpr hok)
      rw [List.cons_append, mergeRows_cons_bad x (xs ++ r :: post) db hx hbad,
        List.cons_append, mergeRows_cons_bad x (xs ++ post) db hx hbad]

/-- Counterexample for C5: with a well-formed remote row followed by a
malformed one, load_food_db does not return the built-in set alone; the
row processed before the failure stays merged in. -/
theorem load_food_db_malformed_cex :
    rowOk cexBadRow = false ∧
    load_food_db (Except.ok [cexGoodRow, cexBadRow]) ≠ base_db ∧
    alookup (load_food_db (Except.ok [cexGoodRow, cexBadRow])) "Remote Oats" =
      some ⟨100, 1, 2, 3⟩ ∧
    alookup base_db "Remote Oats" = none := by
  refine ⟨rfl, ?_, rfl, rfl⟩
  intro h
  have h1 : alookup (load_food_db (Except.ok [cexGoodRow, cexBadRow]))
      "Remote Oats" = some ⟨100, 1, 2, 3⟩ := rfl
  have h2 : alookup base_db "Remote Oats" = none := rfl
  rw [h, h2] at h1
  exact Option.noConfusion h1

/-- C5 (amended): a failure of the remote fetch itself leaves exactly
the built-in set; a malformed row aborts the merge, leaving the
built-ins plus the rows processed before it; no failure propagates. -/
theorem load_food_db_failure_spec :
    load_food_db (Except.error ()) = base_db ∧
    (∀ (pre : List FoodRow) (r : FoodRow) (post : List FoodRow),
      (∀ x ∈ pre, rowOk x = true) → rowOk r = false →
      load_food_db (Except.ok (pre ++ r :: post)) = mergeRows pre base_db) := by
  constructor
  · rfl
  · intro pre r post hpre hbad
    obtain ⟨hname, hbad'⟩ := rowOk_false_elim r hbad
    rw [load_food_db, mergeRows_append_ok (r :: post) pre base_db hpre]
    exact mergeRows_cons_bad r post (mergeRows pre base_db) hname hbad'

/-- Witness for C5 (amended): the malformed-row branch evaluated on a
concrete two-row fetch. -/
theorem load_food_db_failure_spec_witness :
    (∀ x ∈ [cexGoodRow], rowOk x = true) ∧ rowOk cexBadRow = false ∧
    load_food_db (Except.ok ([cexGoodRow] ++ cexBadRow :: [])) =
      mergeRows [cexGoodRow] base_db := by
  refine ⟨by decide, rfl, ?_⟩
  exact load_food_db_failure_spec.2 [cexGoodRow] cexBadRow [] (by decide) rfl

/-- C6: on a successful remote read, every well-formed row with a
non-empty name not shadowed by a later row ends up in the catalog with
its parsed profile (overriding any built-in of the same name); names
never mentioned remotely keep their built-in binding; an empty-name row
is skipped entirely. -/
theorem load_food_db_success_spec :
    (∀ (rows pre post : List FoodRow) (r : FoodRow) (cal p f c : ℚ),
      (∀ x ∈ rows, rowOk x = true) → rows = pre ++ r :: post →
      r.name ≠ "" → (∀ x ∈ post, x.name ≠ r.name) →
      r.cal = some cal → r.p = some p → r.f = some f → r.c = some c →
      alookup (load_food_db (Except.ok rows)) r.name = some ⟨cal, p, f, c⟩) ∧
    (∀ (rows : List FoodRow) (n : String), (∀ x ∈ rows, x.name ≠ n) →
      alookup (load_food_db (Except.ok rows)) n = alookup base_db n) ∧
    (∀ (pre post : List FoodRow) (r : FoodRow), r.name = "" →
      load_food_db (Except.ok (pre ++ r :: post)) =
        load_food_db (Except.ok (pre ++ post))) := by
  refine ⟨?_, ?_, ?_⟩
  · intro rows pre post r cal p f c hok hsplit hname hpost hcal hp hf hc
    subst hsplit
    have hpre : ∀ x ∈ pre, rowOk x = true :=
      fun x hx => hok x (List.mem_append_left _ hx)
    rw [load_food_db, mergeRows_append_ok (r :: post) pre base_db hpre,
      mergeRows_cons_good r post _ hname cal p f c hcal hp hf hc,
      alookup_mergeRows_not_mem r.name post _ hpost]
    exact alookup_dbInsert_self _ r.name ⟨cal, p, f, c⟩
  · intro rows n h
    exact alookup_mergeRows_not_mem n rows base_db h
  · intro pre post r hr
    exact mergeRows_skip_empty r hr post pre base_db

/-- Witness for C6: a single remote row overriding the built-in Apple
entry, with an untouched built-in looked up unchanged. -/
theorem load_food_db_success_spec_witness :
    (∀ x ∈ [wFoodRow], rowOk x = true) ∧
    alookup (load_food_db (Except.ok [wFoodRow])) "Apple (1 Medium)" =
      some ⟨10, 1, 1, 1⟩ ∧
    alookup (load_food_db (Except.ok [wFoodRow])) "Chicken Breast (200g + Oil)" =
      alookup base_db "Chicken Breast (200g + Oil)" := by
  refine ⟨by decide, ?_, ?_⟩
  · exact load_food_db_success_spec.1 [wFoodRow] [] [] wFoodRow 10 1 1 1
      (by decide) rfl (by decide) (by decide) rfl rfl rfl rfl
  · exact load_food_db_success_spec.2.1 [wFoodRow] _ (by decide)

/-- C1: smart_carb_calc returns explicit carbs unchanged when positive;
otherwise it returns max 0 of the derived formula, which is never
negative. -/
theorem smart_carb_calc_spec (cal p f c : ℚ) :
    (0 < c → smart_carb_calc cal p f c = c) ∧
    (¬ 0 < c →
      smart_carb_calc cal p f c = max 0 ((cal - p * 4 - f * 9) / 4) ∧
      0 ≤ smart_carb_calc cal p f c) := by
  constructor
  · intro hc
    simp [smart_carb_calc, hc]
  · intro hc
    rw [smart_carb_calc, if_neg hc]
    exact ⟨rfl, le_max_left 0 _⟩

/-- Witness for C1: both branches of smart_carb_calc_spec evaluated at
concrete inputs. -/
theorem smart_carb_calc_spec_witness :
    ((0 : ℚ) < 7 ∧ smart_carb_calc 100 5 5 7 = 7) ∧
    (¬ (0 : ℚ) < 0 ∧ smart_carb_calc 100 5 5 0 = max 0 ((100 - 5 * 4 - 5 * 9) / 4) ∧
      0 ≤ smart_carb_calc 100 5 5 0) :=
  ⟨⟨by norm_num, (smart_carb_calc_spec 100 5 5 7).1 (by norm_num)⟩,
   ⟨by norm_num, (smart_carb_calc_spec 100 5 5 0).2 (by norm_num)⟩⟩

/-- C4: the planner at current_weight 62, goal 65, maintenance 2400 and
pace 0.3 yields surplus 330, calories 2730, protein 148.8, fat 80,
carbs 353.7, 10 weeks, and a projected date of today plus 70 days. -/
theorem plan_targets_example :
    daily_surplus 0.3 = 330 ∧
    target_cal 2400 0.3 = 2730 ∧
    target_p 62 = 148.8 ∧
    target_f = 80 ∧
    target_c 2400 0.3 62 = 353.7 ∧
    target_c 2400 0.3 62 = max 0 ((2730 - 148.8 * 4 - 80 * 9) / 4) ∧
    weeks_needed 65 62 0.3 = 10 ∧
    ∀ today : ℤ, finish_date 0.3 65 62 today = some (today + 70) := by
  refine ⟨by norm_num [daily_surplus, CALORIES_PER_KG_FAT],
          by norm_num [target_cal, daily_surplus, CALORIES_PER_KG_FAT],
          by norm_num [target_p], rfl, ?_, ?_, ?_, ?_⟩
  · norm_num [target_c, smart_carb_calc, target_cal, daily_surplus,
      CALORIES_PER_KG_FAT, target_p, target_f]
  · norm_num [target_c, smart_carb_calc, target_cal, daily_surplus,
      CALORIES_PER_KG_FAT, target_p, target_f]
  · norm_num [weeks_needed, abs_of_pos]
  · intro today
    have hw : weeks_needed 65 62 0.3 * 7 = 70 := by
      norm_num [weeks_needed, abs_of_pos]
    rw [finish_date, if_pos (by norm_num), hw]
    norm_num

/-- C8: with pace exactly zero no projected date is produced; with
nonzero pace the projection is today plus |goal - current| / |pace|
weeks (floor of the day count). -/
theorem finish_date_spec (pace target_w current_w : ℚ) (today : ℤ) :
    (pace = 0 → finish_date pace target_w current_w today = none) ∧
    (pace ≠ 0 → finish_date pace target_w current_w today =
      some (today + Int.floor (|target_w - current_w| / |pace| * 7))) := by
  constructor
  · intro h
    simp [finish_date, h]
  · intro h
    rw [finish_date, if_pos h]
    rfl

/-- Witness for C8: both branches of finish_date_spec at concrete
inputs. -/
theorem finish_date_spec_witness :
    finish_date 0 65 62 800 = none ∧ finish_date 0.3 65 62 800 = some 870 := by
  constructor
  · exact (finish_date_spec 0 65 62 800).1 rfl
  · have h := (finish_date_spec 0.3 65 62 800).2 (by norm_num)
    rw [h]
    have : |(65 : ℚ) - 62| / |(0.3 : ℚ)| * 7 = 70 := by norm_num [abs_of_pos]
    rw [this]
    norm_num

/-- C9: daily_surplus is linear in pace; doubling pace doubles the
surplus. -/
theorem daily_surplus_linear (x : ℚ) :
    daily_surplus (2 * x) = 2 * daily_surplus x := by
  unfold daily_surplus
  ring

theorem findMatchRow_none (d u n : String) :
    ∀ (l : List VRow) (i : Nat),
      (∀ r ∈ l, ¬(r.date = d ∧ r.user = u ∧ r.name = n)) →
      findMatchRow d u n (i + 1) l = none := by
  intro l
  induction l with
  | nil => intro i _; rfl
  | cons r rs ih =>
    intro i h
    have hr := h r (List.mem_cons_self r rs)
    have hrs : ∀ x ∈ rs, ¬(x.date = d ∧ x.user = u ∧ x.name = n) :=
      fun x hx => h x (List.mem_cons_of_mem r hx)
    rw [findMatchRow, if_neg (Nat.succ_ne_zero i), if_neg hr]
    exact ih (i + 1) hrs

theorem findMatchRow_first (d u n : String) :
    ∀ (l : List VRow) (j : Nat) (hj : j < l.length) (i : Nat),
      ((l.get ⟨j, hj⟩).date = d ∧ (l.get ⟨j, hj⟩).user = u ∧
        (l.get ⟨j, hj⟩).name = n) →
      (∀ (k : Nat) (hk : k < l.length), k < j →
        ¬((l.get ⟨k, hk⟩).date = d ∧ (l.get ⟨k, hk⟩).user = u ∧
          (l.get ⟨k, hk⟩).name = n)) →
      findMatchRow d u n (i + 1) l = some (j + (i + 1)) := by
  intro l
  induction l with
  | nil => intro j hj; exact absurd hj (Nat.not_lt_zero j)
  | cons r rs ih =>
    intro j hj i hmatch hbefore
    cases j with
    | zero =>
      have hm : r.date = d ∧ r.user = u ∧ r.name = n := hmatch
      rw [findMatchRow, if_neg (Nat.succ_ne_zero i), if_pos hm, Nat.zero_add]
    | succ j' =>
      have hr : ¬(r.date = d ∧ r.user = u ∧ r.name = n) :=
        hbefore 0 (Nat.zero_lt_succ _) (Nat.zero_lt_succ j')
      rw [findMatchRow, if_neg (Nat.succ_ne_zero i), if_neg hr]
      have hj' : j' < rs.length := Nat.lt_of_succ_lt_succ hj
      have hbefore' : ∀ (k : Nat) (hk : k < rs.length), k < j' →
          ¬((rs.get ⟨k, hk⟩).date = d ∧ (rs.get ⟨k, hk⟩).user = u ∧
            (rs.get ⟨k, hk⟩).name = n) := by
        intro k hk hkj
        exact hbefore (k + 1) (Nat.succ_lt_succ hk) (Nat.succ_lt_succ hkj)
      have := ih j' hj' (i + 1) hmatch hbefore'
      rw [this]
      congr 1
      omega

theorem findMatchRow_ge (d u n : String) :
    ∀ (l : List VRow) (i j : Nat),
      findMatchRow d u n i l = some j → i ≤ j ∧ 1 ≤ j := by
  intro l
  induction l with
  | nil => intro i j h; exact absurd h (by rw [findMatchRow]; exact Option.noConfusion)
  | cons r rs ih =>
    intro i j h
    by_cases hi : i = 0
    · subst hi
      rw [findMatchRow, if_pos rfl] at h
      have := ih 1 j h
      omega
    · rw [findMatchRow, if_neg hi] at h
      by_cases hm : r.date = d ∧ r.user = u ∧ r.name = n
      · rw [if_pos hm] at h
        have := Option.some.inj h
        omega
      · rw [if_neg hm] at h
        have := ih (i + 1) j h
        omega

theorem eraseIdx_head_of_pos (l : List VRow) (k : Nat) (hk : 1 ≤ k) :
    (l.eraseIdx k).head? = l.head? := by
  cases l with
  | nil => rfl
  | cons a t =>
    cases k with
    | zero => exact absurd hk (by omega)
    | succ m => rfl

/-- C3: delete_meal_from_history deletes exactly the first data row
matching on date, user and name (at most one physical row), and when no
data row matches it reports not-found and leaves the table unchanged. -/
theorem delete_meal_from_history_spec (header : VRow) (rest : List VRow)
    (d u n : String) :
    ((∀ r ∈ rest, ¬(r.date = d ∧ r.user = u ∧ r.name = n)) →
      delete_meal_from_history (header :: rest) d u n = (header :: rest, false)) ∧
    (∀ (j : Nat) (hj : j < rest.length),
      ((rest.get ⟨j, hj⟩).date = d ∧ (rest.get ⟨j, hj⟩).user = u ∧
        (rest.get ⟨j, hj⟩).name = n) →
      (∀ (k : Nat) (hk : k < rest.length), k < j →
        ¬((rest.get ⟨k, hk⟩).date = d ∧ (rest.get ⟨k, hk⟩).user = u ∧
          (rest.get ⟨k, hk⟩).name = n)) →
      delete_meal_from_history (header :: rest) d u n =
        (header :: rest.eraseIdx j, true)) := by
  constructor
  · intro h
    have hfind : findMatchRow d u n 0 (header :: rest) = none := by
      rw [findMatchRow, if_pos rfl]
      exact findMatchRow_none d u n rest 0 h
    rw [delete_meal_from_history, row_to_delete, hfind]
    rfl
  · intro j hj hmatch hbefore
    have hfind : findMatchRow d u n 0 (header :: rest) = some (j + 1) := by
      rw [findMatchRow, if_pos rfl]
      exact findMatchRow_first d u n rest j hj 0 hmatch hbefore
    rw [delete_meal_from_history, row_to_delete, hfind]
    have hpos : (0 : Int) < (j + 1 : Nat) + 1 := by omega
    rw [if_pos hpos]
    have hidx : (((j + 1 : Nat) : Int) + 1 - 1).toNat = j + 1 := by omega
    rw [hidx]
    rfl

/-- Witness for C3: deleting the second data row of a concrete table. -/
theorem delete_meal_from_history_spec_witness :
    delete_meal_from_history
        (⟨"date", "user", "name"⟩ :: [⟨"2025-01-01", "u", "Rice"⟩,
          ⟨"2025-01-01", "u", "Apple"⟩]) "2025-01-01" "u" "Apple" =
      (⟨"date", "user", "name"⟩ :: [⟨"2025-01-01", "u", "Rice"⟩], true) := by
  have h := (delete_meal_from_history_spec ⟨"date", "user", "name"⟩
      [⟨"2025-01-01", "u", "Rice"⟩, ⟨"2025-01-01", "u", "Apple"⟩]
      "2025-01-01" "u" "Apple").2 1 (by decide) (by decide) (by decide)
  exact h

/-- Counterexample for C2: a row whose date cell merely contains the
target as a substring (and cannot be a fallback parse hit either) is
still returned, so the direct check is not exact string equality. -/
theorem get_log_for_date_substring_cex :
    get_log_for_date parseNone
        (Except.ok [⟨"2025-01-010", some "u", "x", 0, 0, 0, 0⟩])
        "2025-01-01" "u" =
      [⟨"2025-01-010", some "u", "x", 0, 0, 0, 0⟩] ∧
    ("2025-01-010" : String) ≠ "2025-01-01" ∧
    parseNone "2025-01-010" = none := by
  refine ⟨rfl, ?_, rfl⟩
  decide

/-- C2 (amended): get_log_for_date returns exactly the fetched rows
whose user cell (empty string when missing) equals u and whose date
string either contains str(d) as a substring or parses and re-renders
to str(d); rows missing a user cell are excluded whenever u is
non-empty. -/
theorem get_log_for_date_spec (parse : String → Option String)
    (data : List HistRow) (d u : String) :
    (∀ r, r ∈ get_log_for_date parse (Except.ok data) d u ↔
      (r ∈ data ∧ userStr r.user = u ∧
        (strContains r.date d = true ∨ parse r.date = some d))) ∧
    (u ≠ "" → ∀ r ∈ get_log_for_date parse (Except.ok data) d u,
      r.user ≠ none) := by
  have main : ∀ r, r ∈ get_log_for_date parse (Except.ok data) d u ↔
      (r ∈ data ∧ userStr r.user = u ∧
        (strContains r.date d = true ∨ parse r.date = some d)) := by
    intro r
    rw [get_log_for_date, List.mem_filter]
    refine and_congr_right fun _ => ?_
    by_cases hu : userStr r.user = u
    · by_cases hs : strContains r.date d = true
      · simp [hs, hu]
      · cases hparse : parse r.date with
        | none => simp [hs, hu, hparse]
        | some s => simp [hs, hu, hparse]
    · simp [hu]
  refine ⟨main, ?_⟩
  intro hne r hr
  obtain ⟨_, huser, _⟩ := (main r).mp hr
  intro hnone
  rw [hnone] at huser
  exact hne (huser.symm.trans (show userStr none = "" from rfl))

/-- Witness for C2 (amended): a matching row is a member of the result
on a concrete two-row fetch, and its user cell is present. -/
theorem get_log_for_date_spec_witness :
    ("u" : String) ≠ "" ∧
    (⟨"2025-01-02", some "u", "m", 1, 1, 1, 1⟩ : HistRow) ∈
      get_log_for_date parseNone
        (Except.ok [⟨"2025-01-02", some "u", "m", 1, 1, 1, 1⟩,
          ⟨"2025-01-03", some "v", "m2", 1, 1, 1, 1⟩]) "2025-01-02" "u" ∧
    (⟨"2025-01-02", some "u", "m", 1, 1, 1, 1⟩ : HistRow).user ≠ none := by
  have h := get_log_for_date_spec parseNone
      [⟨"2025-01-02", some "u", "m", 1, 1, 1, 1⟩,
        ⟨"2025-01-03", some "v", "m2", 1, 1, 1, 1⟩] "2025-01-02" "u"
  have hmem := (h.1 ⟨"2025-01-02", some "u", "m", 1, 1, 1, 1⟩).mpr
      ⟨List.mem_cons_self _ _, rfl, Or.inl rfl⟩
  exact ⟨by decide, hmem, h.2 (by decide) _ hmem⟩

/-- C10: the delete scan never selects the header: the computed 1-based
row index is -1 or at least 2, and the head of the table survives every
delete. -/
theorem delete_header_preserved (table : List VRow) (d u n : String) :
    (row_to_delete table d u n = -1 ∨ 2 ≤ row_to_delete table d u n) ∧
    (delete_meal_from_history table d u n).1.head? = table.head? := by
  rcases hfind : findMatchRow d u n 0 table with _ | i
  · have hr : row_to_delete table d u n = -1 := by
      rw [row_to_delete, hfind]
    refine ⟨Or.inl hr, ?_⟩
    rw [delete_meal_from_history, hr]
    rfl
  · have hge := findMatchRow_ge d u n table 0 i hfind
    have hr : row_to_delete table d u n = (i : Int) + 1 := by
      rw [row_to_delete, hfind]
    refine ⟨Or.inr (by omega), ?_⟩
    rw [delete_meal_from_history, hr, if_pos (by omega)]
    have hidx : ((i : Int) + 1 - 1).toNat = i := by omega
    rw [hidx]
    exact eraseIdx_head_of_pos table i hge.2

theorem addTot_zero (t : Totals) : addTot t ⟨0, 0, 0, 0⟩ = t := by
  cases t
  simp [addTot]

theorem addTot_assoc (a b c : Totals) :
    addTot (addTot a b) c = addTot a (addTot b c) := by
  simp [addTot, add_assoc]

theorem alookup_sumInsert_eq (r : HistRow) (d : String) (hd : r.date = d) :
    ∀ acc : List (String × Totals),
      alookup (sumInsert acc r) d =
        some (match alookup acc d with
              | some t => addTot t (rowTot r)
              | none => rowTot r) := by
  intro acc
  induction acc with
  | nil => simp [sumInsert, alookup, hd]
  | cons kv rest ih =>
    obtain ⟨k, t⟩ := kv
    by_cases hk : k = r.date
    · rw [sumInsert, if_pos hk, alookup, alookup]
      rw [if_pos (hk.trans hd), if_pos (hk.trans hd)]
    · rw [sumInsert, if_neg hk, alookup, alookup]
      have hkd : ¬(k = d) := fun h => hk (h.trans hd.symm)
      rw [if_neg hkd, if_neg hkd, ih]

theorem alookup_sumInsert_ne (r : HistRow) (d : String) (hd : r.date ≠ d) :
    ∀ acc : List (String × Totals),
      alookup (sumInsert acc r) d = alookup acc d := by
  intro acc
  induction acc with
  | nil => simp [sumInsert, alookup, hd]
  | cons kv rest ih =>
    obtain ⟨k, t⟩ := kv
    by_cases hk : k = r.date
    · rw [sumInsert, if_pos hk, alookup, alookup]
      have hkd : ¬(k = d) := fun h => hd (hk.symm.trans h)
      rw [if_neg hkd, if_neg hkd]
    · rw [sumInsert, if_neg hk, alookup, alookup, ih]

theorem alookup_foldl_sumInsert (d : String) :
    ∀ (l : List HistRow) (acc : List (String × Totals)),
      alookup (l.foldl sumInsert acc) d =
        match alookup acc d with
        | some t => some (addTot t (sumTot (dateRows l d)))
        | none =>
          if dateRows l d = [] then none else some (sumTot (dateRows l d)) := by
  intro l
  induction l with
  | nil =>
    intro acc
    rcases hacc : alookup acc d with _ | t
    · simp [dateRows, hacc]
    · simp [dateRows, hacc, sumTot, addTot_zero]
  | cons r rs ih =>
    intro acc
    rw [List.foldl_cons, ih]
    by_cases hd : r.date = d
    · have hfilter : dateRows (r :: rs) d = r :: dateRows rs d := by
        rw [dateRows, List.filter_cons_of_pos]
        · rfl
        · simp [hd]
      rw [alookup_sumInsert_eq r d hd acc, hfilter]
      rcases hacc : alookup acc d with _ | t
      · rcases hrs : dateRows rs d with _ | ⟨x, xs⟩
        · simp [sumTot, addTot_zero]
        · simp [sumTot]
      · simp [sumTot, addTot_assoc]
    · have hfilter : dateRows (r :: rs) d = dateRows rs d := by
        rw [dateRows, List.filter_cons_of_neg]
        · rfl
        · simp [hd]
      rw [alookup_sumInsert_ne r d hd acc, hfilter]

/-- C7: on a populated frame with a user column, get_weekly_stats keeps
exactly the rows of the given user, groups them by date, and each date
group carries the sums of the four macro columns of its rows; dates
with no kept row are absent. -/
theorem get_weekly_stats_spec (data : List HistRow) (u : String)
    (hne : data ≠ []) :
    get_weekly_stats (Except.ok data) true u =
      some (groupSums (userRows data u)) ∧
    (∀ d, dateRows (userRows data u) d ≠ [] →
      alookup (groupSums (userRows data u)) d =
        some (sumTot (dateRows (userRows data u) d))) ∧
    (∀ d, dateRows (userRows data u) d = [] →
      alookup (groupSums (userRows data u)) d = none) := by
  refine ⟨?_, ?_, ?_⟩
  · rw [get_weekly_stats]
    have hempty : data.isEmpty = false := by
      cases data with
      | nil => exact absurd rfl hne
      | cons a t => rfl
    rw [hempty]
    rfl
  · intro d hd
    rw [groupSums, alookup_foldl_sumInsert d (userRows data u) []]
    simp only [alookup]
    rw [if_neg hd]
  · intro d hd
    rw [groupSums, alookup_foldl_sumInsert d (userRows data u) []]
    simp only [alookup]
    rw [if_pos hd]

/-- Witness for C7: the two user-U entries on date D with calories 400
and 300 sum to 700 in the returned stats. -/
theorem get_weekly_stats_spec_witness :
    wWeekData ≠ [] ∧
    get_weekly_stats (Except.ok wWeekData) true "U" =
      some (groupSums (userRows wWeekData "U")) ∧
    alookup (groupSums (userRows wWeekData "U")) "D" = some ⟨700, 5, 7, 9⟩ := by
  have h := get_weekly_stats_spec wWeekData "U" (List.cons_ne_nil _ _)
  refine ⟨List.cons_ne_nil _ _, h.1, ?_⟩
  have hd : dateRows (userRows wWeekData "U") "D" =
      [⟨"D", some "U", "m1", 400, 1, 2, 3⟩, ⟨"D", some "U", "m2", 300, 4, 5, 6⟩] := rfl
  have h2 := h.2.1 "D" (by rw [hd]; exact List.cons_ne_nil _ _)
  rw [h2, hd]
  norm_num [sumTot, addTot, rowTot]

end DietApp
